import Mathlib

/-!
Shallow embedding of `src/conn/query_result.rs` from rust-mysql-simple.

The file models the result-set consumption state machine: the
`SetIteratorState` sum type, the `QueryResult` iterator (row iteration,
`next_set`, metadata accessors, drain-on-drop) and the `ResultSet` scoped
view (row iteration gated on the set index, drain-on-drop).

The connection collaborator (`Conn` in Rust) is modelled as the trace of
what remains on the wire: the undecoded row frames of the current result
set (`cur`), how that row stream terminates (`curTerm`: clean end-of-rows
marker or a row-decode error), and the list of unresolved subsequent sets
(`pending`).  `more_results_exists` is true exactly when `pending` is
nonempty; `handle_result_set` consumes the head of `pending`, yielding its
header and positioning the row tape at that set's rows.
-/

deriving instance DecidableEq for Except

namespace MysqlQR

/-- Abstract token standing for `crate::Error`. -/
abbrev Error := Nat

/-- Abstract token standing for a decoded `Row`. -/
abbrev Row := Nat

/-- A column descriptor; only its identity matters at this layer. -/
structure Column where
  name : String
  deriving DecidableEq

/-- Model of `mysql_common::packets::OkPacket` restricted to the fields the
accessors read: `affected_rows` (u64), `last_insert_id` (optional u64),
`warnings` (u16) and the optional raw `info` bytes. -/
structure OkPacket where
  affected_rows : Nat
  last_insert_id : Option Nat
  warnings : Nat
  info : Option (List Nat)
  deriving DecidableEq

/-- The source's `Or<A, B>` helper enum (renamed: `Or` is taken by Lean). -/
inductive Or2 (A B : Type) where
  | A (a : A)
  | B (b : B)
  deriving DecidableEq

/-- `SetIteratorState` from the source: state of a result set iterator. -/
inductive SetIteratorState where
  /-- Iterator is in a non-empty set (`InSet(Arc<[Column]>)`). -/
  | InSet (cols : List Column)
  /-- Iterator is in an empty set (`InEmptySet(OkPacket)`). -/
  | InEmptySet (ok : OkPacket)
  /-- Iterator is in an errored result set (`Errored(Error)`). -/
  | Errored (e : Error)
  /-- Next result set isn't handled (`OnBoundary`). -/
  | OnBoundary
  /-- No more result sets (`Done`). -/
  | Done
  deriving DecidableEq

/-- `SetIteratorState::ok_packet`. -/
def SetIteratorState.ok_packet : SetIteratorState → Option OkPacket
  | .InEmptySet ok => some ok
  | _ => none

/-- `SetIteratorState::columns`. -/
def SetIteratorState.columns : SetIteratorState → Option (List Column)
  | .InSet cols => some cols
  | _ => none

/-- The `From` impls: a resolved header (`Or<Vec<Column>, OkPacket>`)
becomes `InSet` or `InEmptySet`. -/
def SetIteratorState.fromMeta : Or2 (List Column) OkPacket → SetIteratorState
  | .A cols => .InSet cols
  | .B ok => .InEmptySet ok

/-- The row content of one streaming set as it sits on the wire: the row
frames still to be decoded, and how the stream ends (`none` = clean
end-of-rows marker, `some e` = a row-decode error). -/
structure RowSet where
  rows : List Row
  term : Option Error
  deriving DecidableEq

/-- One unresolved result set on the wire, as the connection will resolve
it: a row-bearing set (header resolves to column metadata), an empty set
(header resolves to a status record), or a header-resolution error. -/
inductive WireSet where
  | streaming (cols : List Column) (rs : RowSet)
  | empty (ok : OkPacket)
  | headerErr (e : Error)
  deriving DecidableEq

/-- Row frames of a wire set (empty for non-streaming sets). -/
def WireSet.rowsOf : WireSet → List Row
  | .streaming _ rs => rs.rows
  | _ => []

/-- Terminal marker of a wire set's row stream. -/
def WireSet.termOf : WireSet → Option Error
  | .streaming _ rs => rs.term
  | _ => none

/-- Outcome of `conn.handle_result_set()` on this wire set. -/
def WireSet.header : WireSet → Except Error (Or2 (List Column) OkPacket)
  | .streaming cols _ => .ok (.A cols)
  | .empty ok => .ok (.B ok)
  | .headerErr e => .error e

/-- The connection, modelled as what remains on the wire. -/
structure Conn where
  cur : List Row
  curTerm : Option Error
  pending : List WireSet
  deriving DecidableEq

/-- `conn.more_results_exists()`. -/
def Conn.more_results_exists (c : Conn) : Bool :=
  !c.pending.isEmpty

/-- `T::next(conn, columns)` / `conn.next_text` / `conn.next_bin`: decode
one row frame of the current set, or consume the end-of-rows marker
(returns `ok none`), or fail with the pending row-decode error. -/
def Conn.pullRow (c : Conn) : Except Error (Option Row) × Conn :=
  match c.cur with
  | r :: rest => (.ok (some r), { c with cur := rest })
  | [] =>
    match c.curTerm with
    | some e => (.error e, { c with curTerm := none })
    | none => (.ok none, c)

/-- `QueryResult`: owns the connection, the current `SetIteratorState` and
the zero-based set index. -/
structure QueryResult where
  conn : Conn
  state : SetIteratorState
  set_index : Nat
  deriving DecidableEq

/-- `QueryResult::from_state`. -/
def QueryResult.from_state (c : Conn) (st : SetIteratorState) : QueryResult :=
  { conn := c, state := st, set_index := 0 }

/-- `QueryResult::new`: built from an already-resolved first header. -/
def QueryResult.new (c : Conn) (meta : Or2 (List Column) OkPacket) : QueryResult :=
  QueryResult.from_state c (SetIteratorState.fromMeta meta)

/-- `QueryResult::handle_next` (body after the debug-build state check):
if `more_results_exists`, consume the next set's header — column metadata
(→ `InSet`), status record (→ `InEmptySet`) or header-resolution error
(→ `Errored`) — and increment `set_index`; otherwise the state becomes
`Done`. -/
def QueryResult.handle_next (qr : QueryResult) : QueryResult :=
  match qr.conn.pending with
  | [] => { qr with state := .Done }
  | s :: rest =>
    { conn := { cur := s.rowsOf, curTerm := s.termOf, pending := rest },
      state :=
        match s.header with
        | .ok meta => SetIteratorState.fromMeta meta
        | .error e => .Errored e,
      set_index := qr.set_index + 1 }

/-- `handle_next` with the `cfg!(debug_assertions)` contract check at its
top: `none` models the defensive check firing (state not `OnBoundary`). -/
def QueryResult.handleNextChecked (qr : QueryResult) : Option QueryResult :=
  match qr.state with
  | .OnBoundary => some qr.handle_next
  | _ => none

/-- `<QueryResult as Iterator>::next`.  Mirrors the
`mem::replace(&mut self.state, OnBoundary)` followed by the match on the
old state; returns the yielded item (row, error or nothing) and the
updated iterator. -/
def QueryResult.next (qr : QueryResult) : Option (Except Error Row) × QueryResult :=
  match qr.state with
  | .InSet cols =>
    match qr.conn.pullRow with
    | (.ok (some row), c2) =>
      (some (.ok row), { qr with conn := c2, state := .InSet cols })
    | (.ok none, c2) =>
      (none, QueryResult.handle_next { qr with conn := c2, state := .OnBoundary })
    | (.error e, c2) =>
      (some (.error e), QueryResult.handle_next { qr with conn := c2, state := .OnBoundary })
  | .InEmptySet _ =>
    (none, QueryResult.handle_next { qr with state := .OnBoundary })
  | .Errored e =>
    (some (.error e), QueryResult.handle_next { qr with state := .OnBoundary })
  | .OnBoundary => (none, { qr with state := .OnBoundary })
  | .Done => (none, { qr with state := .Done })

/-- `<QueryResult as Iterator>::next` as compiled in a debug build: the
calls to `handle_next` go through the defensive state check; `none` models
that check firing. -/
def QueryResult.nextChecked (qr : QueryResult) :
    Option (Option (Except Error Row) × QueryResult) :=
  match qr.state with
  | .InSet cols =>
    match qr.conn.pullRow with
    | (.ok (some row), c2) =>
      some (some (.ok row), { qr with conn := c2, state := .InSet cols })
    | (.ok none, c2) =>
      (QueryResult.handleNextChecked { qr with conn := c2, state := .OnBoundary }).map
        (fun q => (none, q))
    | (.error e, c2) =>
      (QueryResult.handleNextChecked { qr with conn := c2, state := .OnBoundary }).map
        (fun q => (some (.error e), q))
  | .InEmptySet _ =>
    (QueryResult.handleNextChecked { qr with state := .OnBoundary }).map
      (fun q => (none, q))
  | .Errored e =>
    (QueryResult.handleNextChecked { qr with state := .OnBoundary }).map
      (fun q => (some (.error e), q))
  | .OnBoundary => some (none, { qr with state := .OnBoundary })
  | .Done => some (none, { qr with state := .Done })

/-- `QueryResult::next_set`: the returned scoped view is represented by
its tag, the `set_index` it is created with; the `Result` wrapper is kept
because the source returns `Option<Result<ResultSet>>`. -/
def QueryResult.next_set (qr : QueryResult) : Option (Except Error Nat) :=
  match qr.state with
  | .OnBoundary => none
  | .Done => none
  | .Errored _ => none
  | _ => some (.ok qr.set_index)

/-- `QueryResult::affected_rows`. -/
def QueryResult.affected_rows (qr : QueryResult) : Nat :=
  (qr.state.ok_packet.map OkPacket.affected_rows).getD 0

/-- `QueryResult::last_insert_id`. -/
def QueryResult.last_insert_id (qr : QueryResult) : Option Nat :=
  (qr.state.ok_packet.map OkPacket.last_insert_id).getD none

/-- `QueryResult::warnings`. -/
def QueryResult.warnings (qr : QueryResult) : Nat :=
  (qr.state.ok_packet.map OkPacket.warnings).getD 0

/-- Model of `String::from_utf8_lossy` used by `OkPacket::info_str`. -/
def lossyDecode (bs : List Nat) : String :=
  String.mk (bs.map Char.ofNat)

/-- `QueryResult::info_ref`. -/
def QueryResult.info_ref (qr : QueryResult) : List Nat :=
  (qr.state.ok_packet.bind OkPacket.info).getD []

/-- `QueryResult::info_str`. -/
def QueryResult.info_str (qr : QueryResult) : String :=
  ((qr.state.ok_packet.bind OkPacket.info).map lossyDecode).getD ""

/-- `QueryResult::columns` projected through `SetColumns::as_ref`. -/
def QueryResult.columnsRef (qr : QueryResult) : List Column :=
  qr.state.columns.getD []

/-- `<ResultSet as Iterator>::next`: the view is its tag `k`; it forwards
to the owner's row iteration only while `k` equals the owner's live
`set_index`. -/
def ResultSet.next (k : Nat) (qr : QueryResult) : Option (Except Error Row) × QueryResult :=
  if k = qr.set_index then qr.next else (none, qr)

/-! ### Termination measure

The drain loops (`impl Drop`) terminate because every iteration that keeps
the loop alive consumes something from the wire, or moves the state to the
terminal `Done`.  The measure counts remaining wire content twice plus a
rank that is positive except at `Done`. -/

/-- Weight of an optional terminal marker. -/
def optW : Option Error → Nat
  | some _ => 1
  | none => 0

/-- Wire weight of one unresolved set (its header counts 1). -/
def WireSet.weight : WireSet → Nat
  | .streaming _ rs => rs.rows.length + optW rs.term + 1
  | .empty _ => 1
  | .headerErr _ => 1

/-- Remaining wire content of a connection. -/
def Conn.weight (c : Conn) : Nat :=
  c.cur.length + optW c.curTerm + (c.pending.map WireSet.weight).sum

/-- State rank: zero only at the terminal `Done`. -/
def SetIteratorState.rank : SetIteratorState → Nat
  | .Done => 0
  | _ => 1

/-- Termination measure for the drain loops. -/
def QueryResult.mu (qr : QueryResult) : Nat :=
  2 * qr.conn.weight + qr.state.rank


theorem rank_le_one (s : SetIteratorState) : s.rank ≤ 1 := by
  cases s <;> simp [SetIteratorState.rank]

theorem rowsOf_le_weight (s : WireSet) :
    s.rowsOf.length + optW s.termOf + 1 ≤ s.weight := by
  cases s <;> simp [WireSet.rowsOf, WireSet.termOf, WireSet.weight, optW]

/-- Resolving the boundary always strictly decreases the measure. -/
theorem handle_next_mu_lt (qr : QueryResult) (h : qr.state = .OnBoundary) :
    qr.handle_next.mu < qr.mu := by
  cases hp : qr.conn.pending with
  | nil =>
    simp only [QueryResult.handle_next, hp, QueryResult.mu, Conn.weight,
      SetIteratorState.rank, h, List.map_nil, List.sum_nil]
    omega
  | cons s rest =>
    cases s with
    | streaming cols rs =>
      simp only [QueryResult.handle_next, hp, QueryResult.mu, Conn.weight,
        SetIteratorState.rank, h, List.map_cons, List.sum_cons, WireSet.rowsOf,
        WireSet.termOf, WireSet.header, WireSet.weight, SetIteratorState.fromMeta]
      omega
    | empty ok =>
      simp only [QueryResult.handle_next, hp, QueryResult.mu, Conn.weight,
        SetIteratorState.rank, h, List.map_cons, List.sum_cons, WireSet.rowsOf,
        WireSet.termOf, WireSet.header, WireSet.weight, SetIteratorState.fromMeta,
        optW, List.length_nil]
      omega
    | headerErr e =>
      simp only [QueryResult.handle_next, hp, QueryResult.mu, Conn.weight,
        SetIteratorState.rank, h, List.map_cons, List.sum_cons, WireSet.rowsOf,
        WireSet.termOf, WireSet.header, WireSet.weight, SetIteratorState.fromMeta,
        optW, List.length_nil]
      omega

/-- Any step of row iteration from a live set (one for which `next_set`
yields a view) strictly decreases the measure. -/
theorem next_live_mu_lt (qr : QueryResult) (h : qr.next_set.isSome) :
    (qr.next).2.mu < qr.mu := by
  cases hs : qr.state with
  | InSet cols =>
    cases hc : qr.conn.cur with
    | cons r rest =>
      simp only [QueryResult.next, hs, Conn.pullRow, hc, QueryResult.mu,
        Conn.weight, SetIteratorState.rank, List.length_cons]
      omega
    | nil =>
      cases hct : qr.conn.curTerm with
      | some e =>
        simp only [QueryResult.next, hs, Conn.pullRow, hc, hct]
        refine lt_of_lt_of_le (handle_next_mu_lt _ rfl) ?_
        simp only [QueryResult.mu, Conn.weight, SetIteratorState.rank, hs, hc, hct,
          optW, List.length_nil]
        omega
      | none =>
        simp only [QueryResult.next, hs, Conn.pullRow, hc, hct]
        refine lt_of_lt_of_le (handle_next_mu_lt _ rfl) ?_
        simp only [QueryResult.mu, Conn.weight, SetIteratorState.rank, hs]
        omega
  | InEmptySet ok =>
    simp only [QueryResult.next, hs]
    refine lt_of_lt_of_le (handle_next_mu_lt _ rfl) ?_
    simp only [QueryResult.mu, Conn.weight, SetIteratorState.rank, hs]
    omega
  | Errored e => simp [QueryResult.next_set, hs] at h
  | OnBoundary => simp [QueryResult.next_set, hs] at h
  | Done => simp [QueryResult.next_set, hs] at h

/-- Any yielding step of row iteration strictly decreases the measure. -/
theorem next_some_mu_lt (qr : QueryResult) (h : (qr.next).1.isSome) :
    (qr.next).2.mu < qr.mu := by
  cases hs : qr.state with
  | InSet cols =>
    exact next_live_mu_lt qr (by simp [QueryResult.next_set, hs])
  | InEmptySet ok =>
    exact next_live_mu_lt qr (by simp [QueryResult.next_set, hs])
  | Errored e =>
    simp only [QueryResult.next, hs]
    refine lt_of_lt_of_le (handle_next_mu_lt _ rfl) ?_
    simp only [QueryResult.mu, Conn.weight, SetIteratorState.rank, hs]
    omega
  | OnBoundary => simp [QueryResult.next, hs] at h
  | Done => simp [QueryResult.next, hs] at h

/-- Row iteration never increases the measure. -/
theorem next_mu_le (qr : QueryResult) : (qr.next).2.mu ≤ qr.mu := by
  cases hs : qr.state with
  | InSet cols =>
    exact le_of_lt (next_live_mu_lt qr (by simp [QueryResult.next_set, hs]))
  | InEmptySet ok =>
    exact le_of_lt (next_live_mu_lt qr (by simp [QueryResult.next_set, hs]))
  | Errored e =>
    refine le_of_lt ?_
    simp only [QueryResult.next, hs]
    refine lt_of_lt_of_le (handle_next_mu_lt _ rfl) ?_
    simp only [QueryResult.mu, Conn.weight, SetIteratorState.rank, hs]
    omega
  | OnBoundary =>
    simp only [QueryResult.next, hs, QueryResult.mu, SetIteratorState.rank]
    omega
  | Done =>
    simp only [QueryResult.next, hs, QueryResult.mu, SetIteratorState.rank]
    omega

theorem rs_next_isSome_mu_lt (k : Nat) (qr : QueryResult)
    (h : (ResultSet.next k qr).1.isSome) :
    (ResultSet.next k qr).2.mu < qr.mu := by
  by_cases hk : k = qr.set_index
  · simp only [ResultSet.next, if_pos hk] at h ⊢
    exact next_some_mu_lt qr h
  · simp [ResultSet.next, if_neg hk] at h

theorem rs_next_mu_le (k : Nat) (qr : QueryResult) :
    (ResultSet.next k qr).2.mu ≤ qr.mu := by
  by_cases hk : k = qr.set_index
  · simp only [ResultSet.next, if_pos hk]
    exact next_mu_le qr
  · simp [ResultSet.next, if_neg hk]

/-- `<ResultSet as Drop>::drop`: `while self.next().is_some() {}` — keeps
pulling (and discarding) rows and errors until the view's iteration yields
nothing. -/
def ResultSet.drop (k : Nat) (qr : QueryResult) : QueryResult :=
  if _h : (ResultSet.next k qr).1.isSome then
    ResultSet.drop k (ResultSet.next k qr).2
  else
    (ResultSet.next k qr).2
termination_by qr.mu
decreasing_by exact rs_next_isSome_mu_lt k qr (by assumption)

theorem rs_drop_mu_le (k : Nat) (qr : QueryResult) :
    (ResultSet.drop k qr).mu ≤ qr.mu := by
  rw [ResultSet.drop]
  split
  · next h =>
    exact le_trans (rs_drop_mu_le k _) (le_of_lt (rs_next_isSome_mu_lt k qr h))
  · next h => exact rs_next_mu_le k qr
termination_by qr.mu
decreasing_by exact rs_next_isSome_mu_lt k qr (by assumption)

theorem next_set_isSome_rs_drop_mu_lt (qr : QueryResult) (h : qr.next_set.isSome) :
    (ResultSet.drop qr.set_index qr).mu < qr.mu := by
  have h1 : (ResultSet.next qr.set_index qr).2.mu < qr.mu := by
    simp only [ResultSet.next, if_pos rfl]
    exact next_live_mu_lt qr h
  rw [ResultSet.drop]
  split
  · exact lt_of_le_of_lt (rs_drop_mu_le _ _) h1
  · exact h1

/-- `<QueryResult as Drop>::drop`: `while self.next_set().is_some() {}` —
each iteration materialises the scoped view for the current set and drops
it at the end of the loop-condition expression, which drains that set. -/
def QueryResult.drop (qr : QueryResult) : QueryResult :=
  if _h : qr.next_set.isSome then
    QueryResult.drop (ResultSet.drop qr.set_index qr)
  else
    qr
termination_by qr.mu
decreasing_by exact next_set_isSome_rs_drop_mu_lt qr (by assumption)


/-! ### Loop-step equations and fixpoints for the drain loops -/

theorem rs_drop_step_some (k : Nat) (qr : QueryResult)
    (h : (ResultSet.next k qr).1.isSome) :
    ResultSet.drop k qr = ResultSet.drop k (ResultSet.next k qr).2 := by
  rw [ResultSet.drop]
  rw [dif_pos h]

theorem rs_drop_step_none (k : Nat) (qr : QueryResult)
    (h : ¬ (ResultSet.next k qr).1.isSome) :
    ResultSet.drop k qr = (ResultSet.next k qr).2 := by
  rw [ResultSet.drop]
  rw [dif_neg h]

theorem qr_drop_step_some (qr : QueryResult) (h : qr.next_set.isSome) :
    QueryResult.drop qr = QueryResult.drop (ResultSet.drop qr.set_index qr) := by
  rw [QueryResult.drop]
  rw [dif_pos h]

theorem qr_drop_fix (qr : QueryResult) (h : ¬ qr.next_set.isSome) :
    QueryResult.drop qr = qr := by
  rw [QueryResult.drop]
  exact dif_neg h

/-- A stale view (tag different from the live index) is inert: one probe
yields nothing and changes nothing. -/
theorem rs_next_stale (k : Nat) (qr : QueryResult) (h : ¬ k = qr.set_index) :
    ResultSet.next k qr = (none, qr) := by
  simp [ResultSet.next, h]

theorem rs_drop_stale (k : Nat) (qr : QueryResult) (h : ¬ k = qr.set_index) :
    ResultSet.drop k qr = qr := by
  rw [rs_drop_step_none _ _ (by rw [rs_next_stale k qr h]; simp), rs_next_stale k qr h]

theorem next_done_fix (qr : QueryResult) (h : qr.state = .Done) :
    qr.next = (none, qr) := by
  obtain ⟨c, st, i⟩ := qr
  simp only [] at h
  subst h
  simp [QueryResult.next]

theorem rs_next_done_fix (k : Nat) (qr : QueryResult) (h : qr.state = .Done) :
    ResultSet.next k qr = (none, qr) := by
  by_cases hk : k = qr.set_index
  · simp [ResultSet.next, hk, next_done_fix qr h]
  · exact rs_next_stale k qr hk

theorem rs_drop_done (k : Nat) (qr : QueryResult) (h : qr.state = .Done) :
    ResultSet.drop k qr = qr := by
  rw [rs_drop_step_none _ _ (by rw [rs_next_done_fix k qr h]; simp),
    rs_next_done_fix k qr h]

theorem qr_drop_done (qr : QueryResult) (h : qr.state = .Done) :
    QueryResult.drop qr = qr := by
  exact qr_drop_fix qr (by simp [QueryResult.next_set, h])

/-! ### What dropping a scoped view does -/

/-- The state installed by resolving a wire set's header. -/
def headerState (s : WireSet) : SetIteratorState :=
  match s.header with
  | .ok meta => SetIteratorState.fromMeta meta
  | .error e => .Errored e

/-- The iterator exactly after the current set has been fully consumed
(row tape exhausted, terminal marker acknowledged) and the next header
resolved by `handle_next`. -/
def afterCurrentSet (qr : QueryResult) : QueryResult :=
  QueryResult.handle_next
    { conn := { cur := [], curTerm := none, pending := qr.conn.pending },
      state := .OnBoundary, set_index := qr.set_index }

theorem handle_next_nil (c : Conn) (st : SetIteratorState) (i : Nat)
    (h : c.pending = []) :
    QueryResult.handle_next ⟨c, st, i⟩ = ⟨c, .Done, i⟩ := by
  simp [QueryResult.handle_next, h]

theorem handle_next_cons (c : Conn) (st : SetIteratorState) (i : Nat)
    (s : WireSet) (rest : List WireSet) (h : c.pending = s :: rest) :
    QueryResult.handle_next ⟨c, st, i⟩
      = ⟨⟨s.rowsOf, s.termOf, rest⟩, headerState s, i + 1⟩ := by
  simp [QueryResult.handle_next, h, headerState]

/-- Once the boundary after set `i` has been resolved, a view tagged `i`
is done: the loop body stops immediately. -/
theorem rs_drop_handle_next (i : Nat) (pe : List WireSet) :
    ResultSet.drop i (QueryResult.handle_next ⟨⟨[], none, pe⟩, .OnBoundary, i⟩)
      = QueryResult.handle_next ⟨⟨[], none, pe⟩, .OnBoundary, i⟩ := by
  cases pe with
  | nil =>
    rw [handle_next_nil _ _ _ rfl]
    exact rs_drop_done i _ rfl
  | cons s rest =>
    rw [handle_next_cons _ _ _ s rest rfl]
    exact rs_drop_stale i _ (by simp)

/-- Dropping a live view over a row-bearing set pulls every remaining row
of that set, acknowledges its end-of-rows marker or decode error, lets
`handle_next` resolve the next header, and stops there. -/
theorem rs_drop_inset (cu : List Row) :
    ∀ (ct : Option Error) (pe : List WireSet) (cols : List Column) (i : Nat),
    ResultSet.drop i ⟨⟨cu, ct, pe⟩, .InSet cols, i⟩
      = afterCurrentSet ⟨⟨cu, ct, pe⟩, .InSet cols, i⟩ := by
  induction cu with
  | nil =>
    intro ct pe cols i
    cases ct with
    | none =>
      have hn : ResultSet.next i ⟨⟨[], none, pe⟩, .InSet cols, i⟩
          = (none, QueryResult.handle_next ⟨⟨[], none, pe⟩, .OnBoundary, i⟩) := by
        simp [ResultSet.next, QueryResult.next, Conn.pullRow]
      rw [rs_drop_step_none _ _ (by rw [hn]; simp), hn]
      rfl
    | some e =>
      have hn : ResultSet.next i ⟨⟨[], some e, pe⟩, .InSet cols, i⟩
          = (some (.error e),
             QueryResult.handle_next ⟨⟨[], none, pe⟩, .OnBoundary, i⟩) := by
        simp [ResultSet.next, QueryResult.next, Conn.pullRow]
      rw [rs_drop_step_some _ _ (by rw [hn]; simp), hn]
      rw [rs_drop_handle_next]
      rfl
  | cons r rest ih =>
    intro ct pe cols i
    have hn : ResultSet.next i ⟨⟨r :: rest, ct, pe⟩, .InSet cols, i⟩
        = (some (.ok r), ⟨⟨rest, ct, pe⟩, .InSet cols, i⟩) := by
      simp [ResultSet.next, QueryResult.next, Conn.pullRow]
    rw [rs_drop_step_some _ _ (by rw [hn]; simp), hn]
    rw [ih ct pe cols i]
    rfl

/-- Dropping a live view over an empty set acknowledges the set and
resolves the next header, then stops. -/
theorem rs_drop_empty (ok : OkPacket) (pe : List WireSet) (i : Nat) :
    ResultSet.drop i ⟨⟨[], none, pe⟩, .InEmptySet ok, i⟩
      = afterCurrentSet ⟨⟨[], none, pe⟩, .InEmptySet ok, i⟩ := by
  have hn : ResultSet.next i ⟨⟨[], none, pe⟩, .InEmptySet ok, i⟩
      = (none, QueryResult.handle_next ⟨⟨[], none, pe⟩, .OnBoundary, i⟩) := by
    simp [ResultSet.next, QueryResult.next]
  rw [rs_drop_step_none _ _ (by rw [hn]; simp), hn]
  rfl

/-! ### Reachable-state invariant and the full drain -/

/-- Well-formedness of the externally observable iterator states:
`OnBoundary` is never observable; at `Done` the connection is fully
consumed (the `debug_assert` in `next_set`); at `InEmptySet` and
`Errored` the current set has no row tape. -/
def QueryResult.WFb (qr : QueryResult) : Bool :=
  match qr.state with
  | .InSet _ => true
  | .InEmptySet _ => qr.conn.cur.isEmpty && qr.conn.curTerm.isNone
  | .Errored _ => qr.conn.cur.isEmpty && qr.conn.curTerm.isNone
  | .OnBoundary => false
  | .Done => qr.conn.cur.isEmpty && qr.conn.curTerm.isNone && qr.conn.pending.isEmpty

/-- True unless this wire set's header resolves to an error. -/
def wireClean : WireSet → Bool
  | .headerErr _ => false
  | _ => true

/-- No header-resolution error among the sets still on the wire. -/
def cleanPending (l : List WireSet) : Bool :=
  l.all wireClean

/-- If the state is live or `Done`, the iterator is well formed, and no
remaining header resolves to an error, the `QueryResult` drop loop drains
the connection completely and ends in `Done`. -/
theorem drop_drains (pe : List WireSet) :
    ∀ (qr : QueryResult), qr.conn.pending = pe → qr.WFb →
    cleanPending qr.conn.pending → (∀ e, qr.state ≠ .Errored e) →
    (QueryResult.drop qr).state = .Done ∧
      (QueryResult.drop qr).conn = ⟨[], none, []⟩ := by
  induction pe with
  | nil =>
    intro qr hp hwf hcl hne
    obtain ⟨⟨cu, ct, p⟩, st, i⟩ := qr
    simp only [] at hp
    subst hp
    cases st with
    | InSet cols =>
      rw [qr_drop_step_some _ (by simp [QueryResult.next_set])]
      rw [rs_drop_inset cu ct [] cols i]
      have ha : afterCurrentSet ⟨⟨cu, ct, []⟩, .InSet cols, i⟩
          = ⟨⟨[], none, []⟩, .Done, i⟩ := by
        unfold afterCurrentSet
        exact handle_next_nil _ _ _ rfl
      rw [ha, qr_drop_done _ rfl]
      exact ⟨rfl, rfl⟩
    | InEmptySet ok =>
      simp only [QueryResult.WFb, Bool.and_eq_true, List.isEmpty_iff,
        Option.isNone_iff_eq_none] at hwf
      obtain ⟨hcu, hct⟩ := hwf
      subst hcu; subst hct
      rw [qr_drop_step_some _ (by simp [QueryResult.next_set])]
      rw [rs_drop_empty ok [] i]
      have ha : afterCurrentSet ⟨⟨[], none, []⟩, .InEmptySet ok, i⟩
          = ⟨⟨[], none, []⟩, .Done, i⟩ := by
        unfold afterCurrentSet
        exact handle_next_nil _ _ _ rfl
      rw [ha, qr_drop_done _ rfl]
      exact ⟨rfl, rfl⟩
    | Errored e => exact absurd rfl (hne e)
    | OnBoundary => simp [QueryResult.WFb] at hwf
    | Done =>
      simp only [QueryResult.WFb, Bool.and_eq_true, List.isEmpty_iff,
        Option.isNone_iff_eq_none] at hwf
      obtain ⟨⟨hcu, hct⟩, _⟩ := hwf
      subst hcu; subst hct
      rw [qr_drop_done _ rfl]
      exact ⟨rfl, rfl⟩
  | cons w rest ih =>
    intro qr hp hwf hcl hne
    obtain ⟨⟨cu, ct, p⟩, st, i⟩ := qr
    simp only [] at hp
    subst hp
    have hw : cleanPending (w :: rest) := hcl
    rw [cleanPending, List.all_cons, Bool.and_eq_true] at hw
    have hwclean : wireClean w = true := hw.1
    have hwrest : cleanPending rest := hw.2
    have hstep : ∀ (q2 : QueryResult),
        q2 = afterCurrentSet ⟨⟨cu, ct, w :: rest⟩, st, i⟩ →
        (QueryResult.drop q2).state = .Done ∧
          (QueryResult.drop q2).conn = ⟨[], none, []⟩ := by
      intro q2 hq2
      have ha : afterCurrentSet ⟨⟨cu, ct, w :: rest⟩, st, i⟩
          = ⟨⟨w.rowsOf, w.termOf, rest⟩, headerState w, i + 1⟩ := by
        unfold afterCurrentSet
        exact handle_next_cons _ _ _ w rest rfl
      rw [hq2, ha]
      cases w with
      | streaming cols rs =>
        exact ih ⟨⟨rs.rows, rs.term, rest⟩, .InSet cols, i + 1⟩ rfl
          (by simp [QueryResult.WFb, headerState, WireSet.header,
            SetIteratorState.fromMeta, WireSet.rowsOf, WireSet.termOf]) hwrest
          (by intro e h
              simp [headerState, WireSet.header, SetIteratorState.fromMeta] at h)
      | empty ok =>
        exact ih ⟨⟨[], none, rest⟩, .InEmptySet ok, i + 1⟩ rfl
          (by simp [QueryResult.WFb, headerState, WireSet.header,
            SetIteratorState.fromMeta, WireSet.rowsOf, WireSet.termOf])
          hwrest
          (by intro e h
              simp [headerState, WireSet.header, SetIteratorState.fromMeta] at h)
      | headerErr e => simp [wireClean] at hwclean
    cases st with
    | InSet cols =>
      rw [qr_drop_step_some _ (by simp [QueryResult.next_set])]
      rw [rs_drop_inset cu ct (w :: rest) cols i]
      exact hstep _ rfl
    | InEmptySet ok =>
      simp only [QueryResult.WFb, Bool.and_eq_true, List.isEmpty_iff,
        Option.isNone_iff_eq_none] at hwf
      obtain ⟨hcu, hct⟩ := hwf
      subst hcu; subst hct
      rw [qr_drop_step_some _ (by simp [QueryResult.next_set])]
      rw [rs_drop_empty ok (w :: rest) i]
      exact hstep _ rfl
    | Errored e => exact absurd rfl (hne e)
    | OnBoundary => simp [QueryResult.WFb] at hwf
    | Done =>
      simp only [QueryResult.WFb, Bool.and_eq_true, List.isEmpty_iff,
        Option.isNone_iff_eq_none] at hwf
      simp at hwf

/-! ### Invariance ladder across all public operations -/

theorem handle_next_index_ge (c : Conn) (st : SetIteratorState) (i : Nat) :
    i ≤ (QueryResult.handle_next ⟨c, st, i⟩).set_index := by
  cases hp : c.pending with
  | nil => simp [QueryResult.handle_next, hp]
  | cons s rest => simp [QueryResult.handle_next, hp]

/-- Row iteration never decreases the live set index. -/
theorem next_index_mono (qr : QueryResult) :
    qr.set_index ≤ (qr.next).2.set_index := by
  cases hs : qr.state with
  | InSet cols =>
    cases hc : qr.conn.cur with
    | cons r rest => simp [QueryResult.next, hs, Conn.pullRow, hc]
    | nil =>
      cases hct : qr.conn.curTerm with
      | some e =>
        simp only [QueryResult.next, hs, Conn.pullRow, hc, hct]
        exact handle_next_index_ge _ _ _
      | none =>
        simp only [QueryResult.next, hs, Conn.pullRow, hc, hct]
        exact handle_next_index_ge _ _ _
  | InEmptySet ok =>
    simp only [QueryResult.next, hs]
    exact handle_next_index_ge _ _ _
  | Errored e =>
    simp only [QueryResult.next, hs]
    exact handle_next_index_ge _ _ _
  | OnBoundary => simp [QueryResult.next, hs]
  | Done => simp [QueryResult.next, hs]

theorem rs_next_index_mono (k : Nat) (qr : QueryResult) :
    qr.set_index ≤ (ResultSet.next k qr).2.set_index := by
  by_cases hk : k = qr.set_index
  · simp only [ResultSet.next, if_pos hk]
    exact next_index_mono qr
  · simp [ResultSet.next, if_neg hk]

theorem rs_drop_index_mono (k : Nat) (qr : QueryResult) :
    qr.set_index ≤ (ResultSet.drop k qr).set_index := by
  rw [ResultSet.drop]
  split
  · exact le_trans (rs_next_index_mono k qr) (rs_drop_index_mono k _)
  · exact rs_next_index_mono k qr
termination_by qr.mu
decreasing_by exact rs_next_isSome_mu_lt k qr (by assumption)

theorem qr_drop_index_mono (qr : QueryResult) :
    qr.set_index ≤ (QueryResult.drop qr).set_index := by
  rw [QueryResult.drop]
  split
  · exact le_trans (rs_drop_index_mono qr.set_index qr) (qr_drop_index_mono _)
  · exact le_refl _
termination_by qr.mu
decreasing_by exact next_set_isSome_rs_drop_mu_lt qr (by assumption)

theorem handle_next_not_boundary (c : Conn) (st : SetIteratorState) (i : Nat) :
    (QueryResult.handle_next ⟨c, st, i⟩).state ≠ .OnBoundary := by
  cases hp : c.pending with
  | nil => simp [QueryResult.handle_next, hp]
  | cons s rest =>
    cases s <;>
      simp [QueryResult.handle_next, hp, WireSet.header, SetIteratorState.fromMeta]

/-- Row iteration never leaves the iterator on the boundary. -/
theorem next_not_boundary (qr : QueryResult) (h : qr.state ≠ .OnBoundary) :
    (qr.next).2.state ≠ .OnBoundary := by
  cases hs : qr.state with
  | InSet cols =>
    cases hc : qr.conn.cur with
    | cons r rest => simp [QueryResult.next, hs, Conn.pullRow, hc]
    | nil =>
      cases hct : qr.conn.curTerm with
      | some e =>
        simp only [QueryResult.next, hs, Conn.pullRow, hc, hct]
        exact handle_next_not_boundary _ _ _
      | none =>
        simp only [QueryResult.next, hs, Conn.pullRow, hc, hct]
        exact handle_next_not_boundary _ _ _
  | InEmptySet ok =>
    simp only [QueryResult.next, hs]
    exact handle_next_not_boundary _ _ _
  | Errored e =>
    simp only [QueryResult.next, hs]
    exact handle_next_not_boundary _ _ _
  | OnBoundary => exact absurd hs h
  | Done => simp [QueryResult.next, hs]

theorem rs_next_not_boundary (k : Nat) (qr : QueryResult)
    (h : qr.state ≠ .OnBoundary) :
    (ResultSet.next k qr).2.state ≠ .OnBoundary := by
  by_cases hk : k = qr.set_index
  · simp only [ResultSet.next, if_pos hk]
    exact next_not_boundary qr h
  · simpa [ResultSet.next, if_neg hk] using h

theorem rs_drop_not_boundary (k : Nat) (qr : QueryResult)
    (h : qr.state ≠ .OnBoundary) :
    (ResultSet.drop k qr).state ≠ .OnBoundary := by
  rw [ResultSet.drop]
  split
  · exact rs_drop_not_boundary k _ (rs_next_not_boundary k qr h)
  · exact rs_next_not_boundary k qr h
termination_by qr.mu
decreasing_by exact rs_next_isSome_mu_lt k qr (by assumption)

theorem qr_drop_not_boundary (qr : QueryResult) (h : qr.state ≠ .OnBoundary) :
    (QueryResult.drop qr).state ≠ .OnBoundary := by
  rw [QueryResult.drop]
  split
  · exact qr_drop_not_boundary _ (rs_drop_not_boundary qr.set_index qr h)
  · exact h
termination_by qr.mu
decreasing_by exact next_set_isSome_rs_drop_mu_lt qr (by assumption)

/-! ### The public operations as a calculus -/

/-- One public mutating operation on a `QueryResult`: a row-iteration call
on the iterator itself, a row-iteration call through a scoped view tagged
`k`, disposal of the iterator, or disposal of a view tagged `k`.
(`next_set` and the metadata accessors take no ownership of the wire and
leave the iterator untouched.) -/
inductive Op where
  | pull
  | viewPull (k : Nat)
  | dispose
  | viewDispose (k : Nat)
  deriving DecidableEq

/-- Effect of one public operation on the iterator. -/
def applyOp : Op → QueryResult → QueryResult
  | .pull, qr => (qr.next).2
  | .viewPull k, qr => (ResultSet.next k qr).2
  | .dispose, qr => QueryResult.drop qr
  | .viewDispose k, qr => ResultSet.drop k qr

/-- Effect of a sequence of public operations, applied left to right. -/
def applyOps : List Op → QueryResult → QueryResult
  | [], qr => qr
  | op :: ops, qr => applyOps ops (applyOp op qr)

theorem applyOp_done (op : Op) (qr : QueryResult) (h : qr.state = .Done) :
    applyOp op qr = qr := by
  cases op with
  | pull => simp [applyOp, next_done_fix qr h]
  | viewPull k => simp [applyOp, rs_next_done_fix k qr h]
  | dispose => exact qr_drop_done qr h
  | viewDispose k => exact rs_drop_done k qr h

theorem applyOps_done (ops : List Op) (qr : QueryResult) (h : qr.state = .Done) :
    applyOps ops qr = qr := by
  induction ops with
  | nil => rfl
  | cons op rest ih =>
    simp only [applyOps, applyOp_done op qr h]
    exact ih

theorem applyOp_index_mono (op : Op) (qr : QueryResult) :
    qr.set_index ≤ (applyOp op qr).set_index := by
  cases op with
  | pull => exact next_index_mono qr
  | viewPull k => exact rs_next_index_mono k qr
  | dispose => exact qr_drop_index_mono qr
  | viewDispose k => exact rs_drop_index_mono k qr

theorem applyOps_index_mono (ops : List Op) (qr : QueryResult) :
    qr.set_index ≤ (applyOps ops qr).set_index := by
  induction ops generalizing qr with
  | nil => exact le_refl _
  | cons op rest ih =>
    exact le_trans (applyOp_index_mono op qr) (ih (applyOp op qr))

theorem applyOp_not_boundary (op : Op) (qr : QueryResult)
    (h : qr.state ≠ .OnBoundary) : (applyOp op qr).state ≠ .OnBoundary := by
  cases op with
  | pull => exact next_not_boundary qr h
  | viewPull k => exact rs_next_not_boundary k qr h
  | dispose => exact qr_drop_not_boundary qr h
  | viewDispose k => exact rs_drop_not_boundary k qr h

theorem applyOps_not_boundary (ops : List Op) (qr : QueryResult)
    (h : qr.state ≠ .OnBoundary) : (applyOps ops qr).state ≠ .OnBoundary := by
  induction ops generalizing qr with
  | nil => exact h
  | cons op rest ih =>
    exact ih (applyOp op qr) (applyOp_not_boundary op qr h)

/-! ### Claim fixtures -/

/-- Whether the state currently stores an error. -/
def SetIteratorState.erroredB : SetIteratorState → Bool
  | .Errored _ => true
  | _ => false

def cexOkFirst : OkPacket := ⟨5, some 9, 2, some [104, 105]⟩

def cexOkLast : OkPacket := ⟨1, none, 0, none⟩

/-- A wire with a header-resolution error followed by one more set. -/
def cexConn : Conn := ⟨[], none, [WireSet.headerErr 7, WireSet.empty cexOkLast]⟩

/-- Reachable iterator: construct on an empty first set, pull once; the
pull resolves the next header, which errors, leaving the state `Errored 7`
with one set still pending. -/
def cexQ : QueryResult := (QueryResult.next (QueryResult.new cexConn (Or2.B cexOkFirst))).2

def w1Ok : OkPacket := ⟨1, none, 0, none⟩

def w1Q : QueryResult := QueryResult.new ⟨[3, 4], none, [WireSet.empty w1Ok]⟩ (Or2.A [⟨"id"⟩])

def w2Q : QueryResult := ⟨⟨[], none, []⟩, .Errored 3, 0⟩

def w3Q : QueryResult := ⟨⟨[], none, []⟩, .Done, 1⟩

def w4Q : QueryResult := ⟨⟨[], none, []⟩, .InSet [], 0⟩

def w5Ok : OkPacket := ⟨2, none, 1, none⟩

def w5Q : QueryResult := ⟨⟨[], none, [WireSet.empty w5Ok]⟩, .OnBoundary, 3⟩

def w6Q : QueryResult := ⟨⟨[], none, []⟩, .Done, 0⟩

def w7Q : QueryResult := ⟨⟨[], none, []⟩, .Done, 2⟩

def w8Ok : OkPacket := ⟨0, none, 0, none⟩

def w8Q : QueryResult := ⟨⟨[], none, []⟩, .InEmptySet w8Ok, 0⟩

def w9Ok : OkPacket := ⟨4, some 2, 0, none⟩

def w9Q : QueryResult := ⟨⟨[7], none, [WireSet.empty w9Ok]⟩, .InSet [⟨"a"⟩], 0⟩

/-! ### Claims -/

/-- C1 (counterexample): the claim "dropping the QueryResult drains the
connection completely: after the drop the state is Done and nothing
remains on the connection" fails at the reachable iterator `cexQ`
(constructed by `new` on an empty first set followed by one row-iteration
call): its state is `Errored 7`, `next_set` therefore returns `None`, so
the drop loop exits immediately — the drop is the identity, the state
stays `Errored` (not `Done`), and a whole set header remains pending. -/
theorem claim_C1_cex :
    QueryResult.drop cexQ = cexQ ∧
    cexQ.state = SetIteratorState.Errored 7 ∧
    cexQ.conn.pending = [WireSet.empty cexOkLast] := by
  refine ⟨qr_drop_fix cexQ (by decide), by decide, by decide⟩

/-- C1 (amended): dropping a well-formed QueryResult whose remaining set
headers all resolve cleanly drains the connection completely — the state
ends `Done` and no rows or set headers remain — provided the state at drop
time is not Errored; if the state is Errored, the drop loop exits at once
and leaves the iterator (stored error, remaining sets) untouched. -/
theorem claim_C1 (qr : QueryResult) (hwf : qr.WFb = true)
    (hclean : cleanPending qr.conn.pending = true) :
    (qr.state.erroredB = false →
      (QueryResult.drop qr).state = SetIteratorState.Done ∧
      (QueryResult.drop qr).conn = ⟨[], none, []⟩) ∧
    (qr.state.erroredB = true → QueryResult.drop qr = qr) := by
  constructor
  · intro hne
    refine drop_drains qr.conn.pending qr rfl hwf hclean ?_
    intro e h
    rw [h] at hne
    simp [SetIteratorState.erroredB] at hne
  · intro he
    have hex : ∃ e, qr.state = SetIteratorState.Errored e := by
      cases hs : qr.state with
      | Errored e => exact ⟨e, rfl⟩
      | InSet cols => rw [hs] at he; simp [SetIteratorState.erroredB] at he
      | InEmptySet ok => rw [hs] at he; simp [SetIteratorState.erroredB] at he
      | OnBoundary => rw [hs] at he; simp [SetIteratorState.erroredB] at he
      | Done => rw [hs] at he; simp [SetIteratorState.erroredB] at he
    obtain ⟨e, hs⟩ := hex
    exact qr_drop_fix qr (by simp [QueryResult.next_set, hs])

/-- C1 (witness): a two-set response (a streaming set with two rows left,
then an empty set) drains to `Done` with an empty connection. -/
theorem claim_C1_witness :
    (QueryResult.drop w1Q).state = SetIteratorState.Done ∧
      (QueryResult.drop w1Q).conn = ⟨[], none, []⟩ :=
  (claim_C1 w1Q (by decide) (by decide)).1 (by decide)

/-- C2 (counterexample): the claim "every error is delivered to the caller
exactly once ... never silently dropped on any path, including disposal"
fails: in the reachable execution behind `cexQ` the header-resolution
error `7` is stored as `Errored`, the row-iteration call that stored it
returns nothing, and disposal (`drop`) discards the iterator unchanged —
the error value is never delivered to the caller. -/
theorem claim_C2_cex :
    (QueryResult.next (QueryResult.new cexConn (Or2.B cexOkFirst))).1 = none ∧
    cexQ.state = SetIteratorState.Errored 7 ∧
    QueryResult.drop cexQ = cexQ := by
  refine ⟨by decide, by decide, qr_drop_fix cexQ (by decide)⟩

/-- C2 (amended): every error is delivered at most once.  Pulling a row on
`Errored e` yields `Err(e)` and replaces the state via advance-to-next-set
(the stored error is gone, and `next_set` reports no view for it); pulling
a row on a streaming set whose next frame is a decode error yields that
error and consumes its marker.  But an error still stored at disposal time
is discarded, not delivered. -/
theorem claim_C2 (qr : QueryResult) (e : Error) :
    (qr.state = SetIteratorState.Errored e →
      (qr.next).1 = some (Except.error e) ∧
      (qr.next).2 = QueryResult.handle_next { qr with state := SetIteratorState.OnBoundary } ∧
      qr.next_set = none) ∧
    (∀ cols, qr.state = SetIteratorState.InSet cols →
      qr.conn.cur = [] → qr.conn.curTerm = some e →
      (qr.next).1 = some (Except.error e) ∧
      (qr.next).2 = QueryResult.handle_next
        { qr with conn := { qr.conn with curTerm := none },
                  state := SetIteratorState.OnBoundary }) := by
  constructor
  · intro h
    refine ⟨?_, ?_, ?_⟩ <;> simp [QueryResult.next, QueryResult.next_set, h]
  · intro cols hs hc hct
    constructor <;> simp [QueryResult.next, hs, Conn.pullRow, hc, hct]

/-- C2 (witness): on a concrete `Errored 3` iterator the stored error is
yielded by the pull and the state is replaced through advance-to-next-set. -/
theorem claim_C2_witness :
    (w2Q.next).1 = some (Except.error 3) ∧
      (w2Q.next).2 = QueryResult.handle_next { w2Q with state := SetIteratorState.OnBoundary } ∧
      w2Q.next_set = none :=
  (claim_C2 w2Q 3).1 rfl

/-- C3: a scoped view tagged `k` yields nothing — no row and no error —
and leaves the owner untouched whenever `k` differs from the owner's live
index; and since the live index never decreases under any sequence of
public operations, once the owner has advanced past `k` the view yields
nothing permanently. -/
theorem claim_C3 (k : Nat) (qr : QueryResult) :
    (k ≠ qr.set_index → ResultSet.next k qr = (none, qr)) ∧
    (k < qr.set_index → ∀ ops : List Op,
      ResultSet.next k (applyOps ops qr) = (none, applyOps ops qr)) := by
  constructor
  · intro h
    exact rs_next_stale k qr h
  · intro h ops
    have hmono := applyOps_index_mono ops qr
    exact rs_next_stale k _ (by omega)

/-- C3 (witness): a view tagged 0 on an owner at index 1 stays inert after
a further row-iteration call. -/
theorem claim_C3_witness :
    ResultSet.next 0 (applyOps [Op.pull] w3Q) = (none, applyOps [Op.pull] w3Q) :=
  (claim_C3 0 w3Q).2 (by decide) [Op.pull]

/-- C4: `next_set` returns `None` exactly when the state is `OnBoundary`,
`Done` or `Errored`; on `InSet` and `InEmptySet` it returns a view tagged
with the current set index wrapped in `Ok` — never an error. -/
theorem claim_C4 (qr : QueryResult) :
    (qr.next_set = none ↔
      qr.state = SetIteratorState.OnBoundary ∨ qr.state = SetIteratorState.Done ∨
        ∃ e, qr.state = SetIteratorState.Errored e) ∧
    (∀ cols, qr.state = SetIteratorState.InSet cols →
      qr.next_set = some (Except.ok qr.set_index)) ∧
    (∀ ok, qr.state = SetIteratorState.InEmptySet ok →
      qr.next_set = some (Except.ok qr.set_index)) := by
  refine ⟨?_, ?_, ?_⟩
  · cases hs : qr.state <;> simp [QueryResult.next_set, hs]
  · intro cols hs
    simp [QueryResult.next_set, hs]
  · intro ok hs
    simp [QueryResult.next_set, hs]

/-- C4 (witness): on a concrete streaming set, `next_set` yields the view
for index 0 wrapped in `Ok`. -/
theorem claim_C4_witness :
    w4Q.next_set = some (Except.ok w4Q.set_index) :=
  (claim_C4 w4Q).2.1 [] rfl

/-- C5: `handle_next` invoked on the boundary: with no further set the
state becomes `Done` and the index is unchanged; with a further set the
state becomes `InSet` on column metadata, `InEmptySet` on a status record,
or `Errored` on a header-resolution error, and the index increments by
exactly one in all three outcomes. -/
theorem claim_C5 (qr : QueryResult) (_h : qr.state = SetIteratorState.OnBoundary) :
    (qr.conn.pending = [] →
      qr.handle_next.state = SetIteratorState.Done ∧
      qr.handle_next.set_index = qr.set_index) ∧
    (∀ cols rs rest, qr.conn.pending = WireSet.streaming cols rs :: rest →
      qr.handle_next.state = SetIteratorState.InSet cols ∧
      qr.handle_next.set_index = qr.set_index + 1) ∧
    (∀ ok rest, qr.conn.pending = WireSet.empty ok :: rest →
      qr.handle_next.state = SetIteratorState.InEmptySet ok ∧
      qr.handle_next.set_index = qr.set_index + 1) ∧
    (∀ e rest, qr.conn.pending = WireSet.headerErr e :: rest →
      qr.handle_next.state = SetIteratorState.Errored e ∧
      qr.handle_next.set_index = qr.set_index + 1) := by
  refine ⟨?_, ?_, ?_, ?_⟩
  · intro hp
    simp [QueryResult.handle_next, hp]
  · intro cols rs rest hp
    simp [QueryResult.handle_next, hp, WireSet.header, SetIteratorState.fromMeta]
  · intro ok rest hp
    simp [QueryResult.handle_next, hp, WireSet.header, SetIteratorState.fromMeta]
  · intro e rest hp
    simp [QueryResult.handle_next, hp, WireSet.header]

/-- C5 (witness): on a boundary with an empty set pending, `handle_next`
moves to `InEmptySet` and increments the index from 3 to 4. -/
theorem claim_C5_witness :
    w5Q.handle_next.state = SetIteratorState.InEmptySet w5Ok ∧
      w5Q.handle_next.set_index = w5Q.set_index + 1 :=
  (claim_C5 w5Q rfl).2.2.1 w5Ok [] rfl

/-- C6: in every state other than `InEmptySet` — `InSet`, `Errored`,
`OnBoundary`, `Done` — the metadata accessors return defaults (0, `none`,
0, empty info bytes and empty info string); in `InEmptySet` they return
the stored status record's fields. -/
theorem claim_C6 (qr : QueryResult) :
    ((∀ ok, qr.state ≠ SetIteratorState.InEmptySet ok) →
      qr.affected_rows = 0 ∧ qr.last_insert_id = none ∧ qr.warnings = 0 ∧
      qr.info_ref = [] ∧ qr.info_str = "") ∧
    (∀ ok, qr.state = SetIteratorState.InEmptySet ok →
      qr.affected_rows = ok.affected_rows ∧
      qr.last_insert_id = ok.last_insert_id ∧
      qr.warnings = ok.warnings ∧
      qr.info_ref = ok.info.getD [] ∧
      qr.info_str = (ok.info.map lossyDecode).getD "") := by
  constructor
  · intro hno
    cases hs : qr.state with
    | InEmptySet ok => exact absurd hs (hno ok)
    | InSet cols =>
      simp [QueryResult.affected_rows, QueryResult.last_insert_id,
        QueryResult.warnings, QueryResult.info_ref, QueryResult.info_str,
        SetIteratorState.ok_packet, hs]
    | Errored e =>
      simp [QueryResult.affected_rows, QueryResult.last_insert_id,
        QueryResult.warnings, QueryResult.info_ref, QueryResult.info_str,
        SetIteratorState.ok_packet, hs]
    | OnBoundary =>
      simp [QueryResult.affected_rows, QueryResult.last_insert_id,
        QueryResult.warnings, QueryResult.info_ref, QueryResult.info_str,
        SetIteratorState.ok_packet, hs]
    | Done =>
      simp [QueryResult.affected_rows, QueryResult.last_insert_id,
        QueryResult.warnings, QueryResult.info_ref, QueryResult.info_str,
        SetIteratorState.ok_packet, hs]
  · intro ok hs
    simp [QueryResult.affected_rows, QueryResult.last_insert_id,
      QueryResult.warnings, QueryResult.info_ref, QueryResult.info_str,
      SetIteratorState.ok_packet, hs]

/-- C6 (witness): at `Done` all metadata accessors return their defaults. -/
theorem claim_C6_witness :
    w6Q.affected_rows = 0 ∧ w6Q.last_insert_id = none ∧ w6Q.warnings = 0 ∧
      w6Q.info_ref = [] ∧ w6Q.info_str = "" :=
  (claim_C6 w6Q).1 (fun _ h => SetIteratorState.noConfusion h)

/-- C7: `Done` is absorbing — `next_set` reports no further sets, row
iteration yields nothing, and no sequence of public operations (row pulls,
view pulls, disposals) changes the iterator at all. -/
theorem claim_C7 (qr : QueryResult) (h : qr.state = SetIteratorState.Done) :
    qr.next_set = none ∧ (qr.next).1 = none ∧
    (∀ ops : List Op, applyOps ops qr = qr) := by
  refine ⟨by simp [QueryResult.next_set, h], by rw [next_done_fix qr h], ?_⟩
  intro ops
  exact applyOps_done ops qr h

/-- C7 (witness): a `Done` iterator is unchanged by a pull followed by a
disposal, and reports no further sets. -/
theorem claim_C7_witness :
    w7Q.next_set = none ∧ applyOps [Op.pull, Op.dispose] w7Q = w7Q :=
  ⟨(claim_C7 w7Q rfl).1, (claim_C7 w7Q rfl).2.2 [Op.pull, Op.dispose]⟩

/-- C8: `OnBoundary` is never observable: construction never produces it,
and from any state other than `OnBoundary` no sequence of public
operations (row pulls, view pulls, disposals) ever returns control with
the state `OnBoundary` — it is always resolved by advance-to-next-set
inside the call. -/
theorem claim_C8 (c : Conn) (meta : Or2 (List Column) OkPacket)
    (qr : QueryResult) (h : qr.state ≠ SetIteratorState.OnBoundary) :
    (QueryResult.new c meta).state ≠ SetIteratorState.OnBoundary ∧
    (∀ ops : List Op, (applyOps ops qr).state ≠ SetIteratorState.OnBoundary) := by
  constructor
  · cases meta <;>
      simp [QueryResult.new, QueryResult.from_state, SetIteratorState.fromMeta]
  · intro ops
    exact applyOps_not_boundary ops qr h

/-- C8 (witness): construction on a status record starts in `InEmptySet`,
and a view pull on an `InEmptySet` iterator does not leave `OnBoundary`. -/
theorem claim_C8_witness :
    (QueryResult.new ⟨[], none, []⟩ (Or2.B w8Ok)).state ≠ SetIteratorState.OnBoundary ∧
    (applyOps [Op.viewPull 0] w8Q).state ≠ SetIteratorState.OnBoundary :=
  ⟨(claim_C8 ⟨[], none, []⟩ (Or2.B w8Ok) w8Q (by decide)).1,
   (claim_C8 ⟨[], none, []⟩ (Or2.B w8Ok) w8Q (by decide)).2 [Op.viewPull 0]⟩

/-- C9: disposal of a scoped view tagged with the live index `k` drains
only its own set: it consumes the remaining rows and the end-of-rows
marker or decode error of set `k` and resolves the owner's next header —
after which the connection holds exactly the next set's untouched rows
(nothing of any set after `k` is pulled) and the sets beyond are left
pending for the owner. -/
theorem claim_C9 (qr : QueryResult) (k : Nat) (hk : qr.set_index = k)
    (hwf : qr.WFb = true)
    (hlive : (∃ cols, qr.state = SetIteratorState.InSet cols) ∨
      (∃ ok, qr.state = SetIteratorState.InEmptySet ok)) :
    ResultSet.drop k qr = afterCurrentSet qr ∧
    (qr.conn.pending = [] →
      (ResultSet.drop k qr).state = SetIteratorState.Done ∧
      (ResultSet.drop k qr).conn = ⟨[], none, []⟩ ∧
      (ResultSet.drop k qr).set_index = k) ∧
    (∀ s rest, qr.conn.pending = s :: rest →
      (ResultSet.drop k qr).conn = ⟨s.rowsOf, s.termOf, rest⟩ ∧
      (ResultSet.drop k qr).state = headerState s ∧
      (ResultSet.drop k qr).set_index = k + 1) := by
  obtain ⟨⟨cu, ct, pe⟩, st, i⟩ := qr
  simp only [] at hk
  subst hk
  have hmain : ResultSet.drop i ⟨⟨cu, ct, pe⟩, st, i⟩
      = afterCurrentSet ⟨⟨cu, ct, pe⟩, st, i⟩ := by
    rcases hlive with ⟨cols, hs⟩ | ⟨ok, hs⟩
    · simp only [] at hs
      subst hs
      exact rs_drop_inset cu ct pe cols i
    · simp only [] at hs
      subst hs
      simp only [QueryResult.WFb, Bool.and_eq_true, List.isEmpty_iff,
        Option.isNone_iff_eq_none] at hwf
      obtain ⟨hcu, hct⟩ := hwf
      subst hcu; subst hct
      exact rs_drop_empty ok pe i
  refine ⟨hmain, ?_, ?_⟩
  · intro hp
    subst hp
    rw [hmain]
    unfold afterCurrentSet
    rw [handle_next_nil _ _ _ rfl]
    exact ⟨rfl, rfl, rfl⟩
  · intro s rest hp
    subst hp
    rw [hmain]
    unfold afterCurrentSet
    rw [handle_next_cons _ _ _ s rest rfl]
    exact ⟨rfl, rfl, rfl⟩

/-- C9 (witness): dropping the live view over a one-row streaming set with
one empty set pending drains exactly that set and resolves the next
header. -/
theorem claim_C9_witness :
    ResultSet.drop 0 w9Q = afterCurrentSet w9Q :=
  (claim_C9 w9Q 0 rfl (by decide) (Or.inl ⟨[⟨"a"⟩], rfl⟩)).1

/-- C10: the defensive debug-build check in `handle_next` never fires: row
iteration as compiled in a debug build (`nextChecked`, where each
`handle_next` call goes through the state check) succeeds on every input
and agrees with the release-build iteration — the state is always
`OnBoundary` at the call sites, so the panic branch is unreachable. -/
theorem claim_C10 (qr : QueryResult) :
    qr.nextChecked = some qr.next := by
  cases hs : qr.state with
  | InSet cols =>
    cases hc : qr.conn.cur with
    | cons r rest =>
      simp [QueryResult.nextChecked, QueryResult.next, Conn.pullRow, hs, hc]
    | nil =>
      cases hct : qr.conn.curTerm with
      | some e =>
        simp [QueryResult.nextChecked, QueryResult.next,
          QueryResult.handleNextChecked, Conn.pullRow, hs, hc, hct]
      | none =>
        simp [QueryResult.nextChecked, QueryResult.next,
          QueryResult.handleNextChecked, Conn.pullRow, hs, hc, hct]
  | InEmptySet ok =>
    simp [QueryResult.nextChecked, QueryResult.next,
      QueryResult.handleNextChecked, hs]
  | Errored e =>
    simp [QueryResult.nextChecked, QueryResult.next,
      QueryResult.handleNextChecked, hs]
  | OnBoundary =>
    simp [QueryResult.nextChecked, QueryResult.next, hs]
  | Done =>
    simp [QueryResult.nextChecked, QueryResult.next, hs]
end MysqlQR
